import Mathlib

/-
Verification development for the Image-FT-Mixer repository.

Shallow embedding of the Fourier mixing core:
  - src/src/classes/FourierTransform.js  (forward transform, padding, shift)
  - src/src/classes/FourierMixer.js      (weights, modes, region mask, mixing, inverse)
  - src/src/classes/ImageProcessor.js    (computeFFT entry point)

Modelling conventions:
  - JavaScript f64 numbers are modelled as real numbers; the percentage field of
    a region configuration is modelled as a rational so that the mask is executable.
  - Flat Float64Array buffers are modelled as total functions from indices to
    values; loops that write each target index exactly once are modelled as folds
    of Function.update over the iteration list of the loop.
  - The 1D transforms of the external fft.js dependency (not part of this
    repository) are modelled as the unnormalized forward DFT and the normalized
    inverse DFT on interleaved complex data, which is the documented contract of
    that library.
  - Math.atan2(y, x) is modelled as Complex.arg (x + y*I), which has the same
    value and branch conventions on the reals.
-/

noncomputable section

open Finset

/-- Model of Math.atan2(y, x): the argument of the complex number x + y*I. -/
def atan2 (y x : ℝ) : ℝ := Complex.arg (x + y * Complex.I)

-- ==================== FourierTransform.js ====================

-- nextPowerOf2 (FourierTransform.js lines 291-294):
--   if (n <= 1) return 2; return Math.pow(2, Math.ceil(Math.log2(n)));
def nextPowerOf2 (n : ℕ) : ℕ :=
  if n ≤ 1 then 2 else 2 ^ Nat.clog 2 n

-- padData (FourierTransform.js lines 276-288): zero padding, top-left aligned.
-- Gather form of the copy loop: cell (x, y) of the padded grid holds the source
-- value when (x, y) is inside the original raster and 0 otherwise.
def padData (data : ℕ → ℝ) (width height newWidth newHeight : ℕ) : ℕ → ℝ :=
  fun i =>
    let x := i % newWidth
    let y := i / newWidth
    if x < width ∧ y < height then data (y * width + x) else 0

/-- Model of the transform method of the external fft.js library: the
unnormalized forward DFT on interleaved complex data of length 2n. -/
def transform1D (n : ℕ) (input : ℕ → ℝ) : ℕ → ℝ :=
  fun j =>
    let k := j / 2
    if j % 2 = 0 then
      ∑ t ∈ Finset.range n,
        (input (2 * t) * Real.cos (2 * Real.pi * t * k / n)
          + input (2 * t + 1) * Real.sin (2 * Real.pi * t * k / n))
    else
      ∑ t ∈ Finset.range n,
        (input (2 * t + 1) * Real.cos (2 * Real.pi * t * k / n)
          - input (2 * t) * Real.sin (2 * Real.pi * t * k / n))

/-- Model of the inverseTransform method of the external fft.js library: the
normalized inverse DFT on interleaved complex data of length 2n. -/
def inverseTransform1D (n : ℕ) (input : ℕ → ℝ) : ℕ → ℝ :=
  fun j =>
    let k := j / 2
    if j % 2 = 0 then
      (∑ t ∈ Finset.range n,
        (input (2 * t) * Real.cos (2 * Real.pi * t * k / n)
          - input (2 * t + 1) * Real.sin (2 * Real.pi * t * k / n))) / n
    else
      (∑ t ∈ Finset.range n,
        (input (2 * t) * Real.sin (2 * Real.pi * t * k / n)
          + input (2 * t + 1) * Real.cos (2 * Real.pi * t * k / n))) / n

-- fft2D (FourierTransform.js lines 60-124): 1D FFT of every row, then of every
-- column of the row result. Each stage is given in gather form: the value a
-- stage stores at interleaved index j = y*width*2 + x*2 + p is recovered by
-- decoding p = j % 2, x = (j / 2) % width, y = (j / 2) / width.
def fft2D (data : ℕ → ℝ) (width height : ℕ) : ℕ → ℝ :=
  let rowStage : ℕ → ℝ := fun j =>
    let p := j % 2
    let t := j / 2
    let x := t % width
    let y := t / width
    transform1D width (fun k => if k % 2 = 0 then data (y * width + k / 2) else 0) (x * 2 + p)
  fun j =>
    let p := j % 2
    let t := j / 2
    let x := t % width
    let y := t / width
    transform1D height (fun k => rowStage (k / 2 * width * 2 + x * 2 + k % 2)) (y * 2 + p)

-- Iteration list of the nested shift loops: for y in range(height), for x in
-- range(width), the cell (x, y).
def shiftCells (width height : ℕ) : List (ℕ × ℕ) :=
  (List.range height).flatMap fun y => (List.range width).map fun x => (x, y)

-- Body of the shift loops (FourierTransform.js lines 142-162 and
-- FourierMixer.js lines 290-302): write the complex value at (x, y) to
-- ((x + halfW) % width, (y + halfH) % height).
def shiftStep (complexData : ℕ → ℝ) (width height : ℕ)
    (shifted : ℕ → ℝ) (c : ℕ × ℕ) : ℕ → ℝ :=
  let x := c.1
  let y := c.2
  let halfW := width / 2
  let halfH := height / 2
  let newX := (x + halfW) % width
  let newY := (y + halfH) % height
  let oldIdx := (y * width + x) * 2
  let newIdx := (newY * width + newX) * 2
  Function.update (Function.update shifted newIdx (complexData oldIdx))
    (newIdx + 1) (complexData (oldIdx + 1))

-- fftShiftComplex (FourierTransform.js lines 130-167): fresh zero buffer, then
-- the nested loops over every (x, y).
def fftShiftComplex (complexData : ℕ → ℝ) (width height : ℕ) : ℕ → ℝ :=
  (shiftCells width height).foldl (shiftStep complexData width height) (fun _ => 0)

-- ifftShift (FourierMixer.js lines 285-305): textually the same loop as
-- fftShiftComplex.
def ifftShift (complexData : ℕ → ℝ) (width height : ℕ) : ℕ → ℝ :=
  (shiftCells width height).foldl (shiftStep complexData width height) (fun _ => 0)

-- Result record of compute2DFFT: the stored shifted complex data plus the four
-- derived components (computeComponents, FourierTransform.js lines 170-190).
structure FFTResult where
  complexData : ℕ → ℝ
  magnitude : ℕ → ℝ
  phase : ℕ → ℝ
  real : ℕ → ℝ
  imaginary : ℕ → ℝ

-- compute2DFFT (FourierTransform.js lines 27-57) together with the dimension
-- setup of the constructor (lines 4-24): pad to the next powers of two,
-- transform, shift, then derive the display components.
def compute2DFFT (width height : ℕ) (grayscaleData : ℕ → ℝ) : FFTResult :=
  let fftWidth := nextPowerOf2 width
  let fftHeight := nextPowerOf2 height
  let padded := padData grayscaleData width height fftWidth fftHeight
  let fftResult := fft2D padded fftWidth fftHeight
  let shifted := fftShiftComplex fftResult fftWidth fftHeight
  { complexData := shifted
    magnitude := fun i =>
      Real.sqrt (shifted (i * 2) * shifted (i * 2) + shifted (i * 2 + 1) * shifted (i * 2 + 1))
    phase := fun i => atan2 (shifted (i * 2 + 1)) (shifted (i * 2))
    real := fun i => shifted (i * 2)
    imaginary := fun i => shifted (i * 2 + 1) }

-- ==================== ImageProcessor.js ====================

-- computeFFT (ImageProcessor.js lines 256-270): returns undefined when no
-- grayscale data is loaded, otherwise computes the 2D FFT and returns it.
-- There is no other guard: the dimensions are passed through unchecked.
def imageProcessorComputeFFT (width height : ℕ) (grayscaleData : Option (ℕ → ℝ)) :
    Option FFTResult :=
  match grayscaleData with
  | none => none
  | some g => some (compute2DFFT width height g)

-- ==================== FourierMixer.js ====================

-- createRegionMask (FourierMixer.js lines 236-274), value of the mask at the
-- grid cell (x, y). The percentage is a rational; Math.floor is Int.floor.
def createRegionMask (rtype : String) (size : ℚ) (width height x y : ℕ) : Bool :=
  let centerX := width / 2
  let centerY := height / 2
  let regionPercent := size / 100
  let regionWidth : ℤ := Int.floor ((width : ℚ) * regionPercent / 2)
  let regionHeight : ℤ := Int.floor ((height : ℚ) * regionPercent / 2)
  let dx : ℤ := |(x : ℤ) - (centerX : ℤ)|
  let dy : ℤ := |(y : ℤ) - (centerY : ℤ)|
  let insideR := decide (dx ≤ regionWidth ∧ dy ≤ regionHeight)
  if rtype = "inner" then insideR else !insideR

-- Flat view of the mask at index idx = y * width + x, as read by the mixing
-- loops (regionMask[i]).
def createRegionMaskFlat (rtype : String) (size : ℚ) (width height : ℕ) : ℕ → Bool :=
  fun idx => createRegionMask rtype size width height (idx % width) (idx / width)

-- FFT state fields of one processor, as read during mixing.
structure FFTData where
  fftWidth : ℕ
  fftHeight : ℕ
  complexData : ℕ → ℝ

structure Processor where
  width : ℕ
  height : ℕ
  fft : FFTData

instance : Inhabited Processor := ⟨⟨0, 0, ⟨0, 0, fun _ => 0⟩⟩⟩

structure RegionConfig where
  enabled : Bool
  type : String
  size : ℚ

-- Mixer state (FourierMixer.js constructor, lines 6-11).
structure Mixer where
  processors : List Processor
  mixMode : String
  weights : List ℝ
  regionConfig : Option RegionConfig

def initMixer : Mixer :=
  { processors := []
    mixMode := "magnitude-phase"
    weights := [0.25, 0.25, 0.25, 0.25]
    regionConfig := none }

-- setMixMode (FourierMixer.js lines 28-36).
def setMixMode (m : Mixer) (mode : String) : Mixer :=
  if mode ≠ "magnitude-phase" ∧ mode ≠ "real-imaginary" then
    { m with mixMode := "magnitude-phase" }
  else
    { m with mixMode := mode }

/-- The dispatch condition of mix (FourierMixer.js lines 99-103): the
real-imaginary branch is taken exactly when the stored mode is not the string
magnitude-phase. -/
@[reducible] def mixSelectsRealImaginary (m : Mixer) : Prop :=
  ¬ (m.mixMode = "magnitude-phase")

-- setWeights (FourierMixer.js lines 43-57): normalize to sum 1, falling back
-- to equal weights when the raw sum is 0. reduce((a, b) => a + b, 0) is a left
-- fold of addition starting from 0.
def setWeights (weights : List ℝ) : List ℝ :=
  let sum := weights.foldl (· + ·) 0
  if sum = 0 then weights.map (fun _ => 1 / (weights.length : ℝ))
  else weights.map (fun w => w / sum)

-- Accumulator of the inner source loop of mixMagnitudePhase (FourierMixer.js
-- lines 149-164): (mixedMagnitude, sumCosPhase, sumSinPhase); sources with
-- weight 0 are skipped.
def mpAccum (procs : List Processor) (weights : List ℝ) (i : ℕ) : ℝ × ℝ × ℝ :=
  (List.range procs.length).foldl
    (fun acc j =>
      let fft := (procs.getD j default).fft
      let weight := weights.getD j 0
      if weight = 0 then acc
      else
        let re := fft.complexData (i * 2)
        let im := fft.complexData (i * 2 + 1)
        let magnitude := Real.sqrt (re * re + im * im)
        let phase := atan2 im re
        (acc.1 + magnitude * weight,
         acc.2.1 + Real.cos phase * weight,
         acc.2.2 + Real.sin phase * weight))
    (0, 0, 0)

-- Value written for one included cell in magnitude-phase mode (FourierMixer.js
-- lines 167-174): circular mean of phase, then back to complex form.
def mpCellValue (procs : List Processor) (weights : List ℝ) (i : ℕ) : ℝ × ℝ :=
  let acc := mpAccum procs weights i
  let mixedPhase := atan2 acc.2.2 acc.2.1
  (acc.1 * Real.cos mixedPhase, acc.1 * Real.sin mixedPhase)

-- Accumulator of the inner source loop of mixRealImaginary (FourierMixer.js
-- lines 211-219).
def riAccum (procs : List Processor) (weights : List ℝ) (i : ℕ) : ℝ × ℝ :=
  (List.range procs.length).foldl
    (fun acc j =>
      let fft := (procs.getD j default).fft
      let weight := weights.getD j 0
      if weight = 0 then acc
      else
        (acc.1 + fft.complexData (i * 2) * weight,
         acc.2 + fft.complexData (i * 2 + 1) * weight))
    (0, 0)

-- State threaded through the per-cell mixing loops: the processors that the
-- loop body reads and the output buffer it writes.
structure MixLoopState where
  processors : List Processor
  mixedComplex : ℕ → ℝ

-- Body of the cell loop of mixMagnitudePhase (FourierMixer.js lines 135-175):
-- a masked-out cell is written as (0, 0), an included cell as the mixed value.
def mixMPStep (weights : List ℝ) (regionMask : Option (ℕ → Bool))
    (s : MixLoopState) (i : ℕ) : MixLoopState :=
  let v : ℝ × ℝ :=
    match regionMask with
    | some mask => if mask i then mpCellValue s.processors weights i else (0, 0)
    | none => mpCellValue s.processors weights i
  { s with mixedComplex :=
      Function.update (Function.update s.mixedComplex (i * 2) v.1) (i * 2 + 1) v.2 }

-- Body of the cell loop of mixRealImaginary (FourierMixer.js lines 200-223).
def mixRIStep (weights : List ℝ) (regionMask : Option (ℕ → Bool))
    (s : MixLoopState) (i : ℕ) : MixLoopState :=
  let v : ℝ × ℝ :=
    match regionMask with
    | some mask => if mask i then riAccum s.processors weights i else (0, 0)
    | none => riAccum s.processors weights i
  { s with mixedComplex :=
      Function.update (Function.update s.mixedComplex (i * 2) v.1) (i * 2 + 1) v.2 }

-- Region mask construction shared by both mixing modes (FourierMixer.js lines
-- 131-133 and 196-198): only built when a configuration is present and enabled.
def activeRegionMask (regionConfig : Option RegionConfig) (fftWidth fftHeight : ℕ) :
    Option (ℕ → Bool) :=
  match regionConfig with
  | some rc =>
      if rc.enabled then some (createRegionMaskFlat rc.type rc.size fftWidth fftHeight)
      else none
  | none => none

-- mixMagnitudePhase (FourierMixer.js lines 124-178).
def mixMagnitudePhase (procs : List Processor) (weights : List ℝ)
    (regionConfig : Option RegionConfig) (fftWidth fftHeight : ℕ) : MixLoopState :=
  let size := fftWidth * fftHeight
  let regionMask := activeRegionMask regionConfig fftWidth fftHeight
  (List.range size).foldl (mixMPStep weights regionMask) ⟨procs, fun _ => 0⟩

-- mixRealImaginary (FourierMixer.js lines 189-226).
def mixRealImaginary (procs : List Processor) (weights : List ℝ)
    (regionConfig : Option RegionConfig) (fftWidth fftHeight : ℕ) : MixLoopState :=
  let size := fftWidth * fftHeight
  let regionMask := activeRegionMask regionConfig fftWidth fftHeight
  (List.range size).foldl (mixRIStep weights regionMask) ⟨procs, fun _ => 0⟩

-- Extracted real values of complexToGrayscale (FourierMixer.js lines 387-394),
-- in push order: rows y = 0..outputHeight-1, columns x = 0..outputWidth-1.
def ctgRealValues (complexResult : ℕ → ℝ) (fftWidth outputWidth outputHeight : ℕ) : List ℝ :=
  (List.range outputHeight).flatMap fun y =>
    (List.range outputWidth).map fun x => complexResult ((y * fftWidth + x) * 2)

-- Manual min scan (FourierMixer.js lines 397-402): start from the first
-- element, then compare against the rest.
def ctgMin (l : List ℝ) : ℝ :=
  l.tail.foldl (fun m v => if v < m then v else m) (l.headD 0)

def ctgMax (l : List ℝ) : ℝ :=
  l.tail.foldl (fun m v => if m < v then v else m) (l.headD 0)

-- complexToGrayscale (FourierMixer.js lines 383-442): extract real parts of
-- the top-left output block, min-max normalize to 0..255 with rounding and
-- clamping, or fill with 128 when the range is degenerate. On the reals the
-- range is always finite, so the JavaScript guard (range === 0 || !isFinite(range))
-- reduces to range = 0.
def complexToGrayscale (complexResult : ℕ → ℝ)
    (fftWidth outputWidth outputHeight : ℕ) : List ℤ :=
  let realValues := ctgRealValues complexResult fftWidth outputWidth outputHeight
  let mn := ctgMin realValues
  let mx := ctgMax realValues
  let range := mx - mn
  if range = 0 then List.replicate (outputWidth * outputHeight) 128
  else realValues.map (fun v => max 0 (min 255 (round ((v - mn) / range * 255))))

-- performIFFT (FourierMixer.js lines 316-371): inverse shift, inverse
-- transform of every column, then of every row, then conversion to grayscale.
-- The column and row stages are given in the same gather form as fft2D.
def performIFFT (complexData : ℕ → ℝ) (fftWidth fftHeight outputWidth outputHeight : ℕ) :
    List ℤ :=
  let shiftedData := ifftShift complexData fftWidth fftHeight
  let afterCols : ℕ → ℝ := fun j =>
    let p := j % 2
    let t := j / 2
    let x := t % fftWidth
    let y := t / fftWidth
    inverseTransform1D fftHeight
      (fun k => shiftedData (k / 2 * fftWidth * 2 + x * 2 + k % 2)) (y * 2 + p)
  let result : ℕ → ℝ := fun j =>
    let p := j % 2
    let t := j / 2
    let x := t % fftWidth
    let y := t / fftWidth
    inverseTransform1D fftWidth
      (fun k => afterCols (y * fftWidth * 2 + (k / 2) * 2 + k % 2)) (x * 2 + p)
  complexToGrayscale result fftWidth outputWidth outputHeight

-- mix (FourierMixer.js lines 78-113): guard against an empty processor list,
-- check that all processors share the dimensions of the first, dispatch on the
-- mode, then reconstruct.
def mix (m : Mixer) : Except String (List ℤ × ℕ × ℕ) :=
  match m.processors with
  | [] => .error "No images with FFT data to mix"
  | p0 :: _ =>
    let width := p0.width
    let height := p0.height
    let fftWidth := p0.fft.fftWidth
    let fftHeight := p0.fft.fftHeight
    if m.processors.all (fun p => p.width == width && p.height == height) then
      let mixedComplexData :=
        if m.mixMode = "magnitude-phase" then
          (mixMagnitudePhase m.processors m.weights m.regionConfig fftWidth fftHeight).mixedComplex
        else
          (mixRealImaginary m.processors m.weights m.regionConfig fftWidth fftHeight).mixedComplex
      .ok (performIFFT mixedComplexData fftWidth fftHeight width height, width, height)
    else .error "All images must have the same dimensions"

-- Per-source values read by the magnitude-phase accumulation at cell i from
-- source j (FourierMixer.js lines 155-159), named for use in statements.
def srcRe (procs : List Processor) (i j : ℕ) : ℝ :=
  (procs.getD j default).fft.complexData (i * 2)

def srcIm (procs : List Processor) (i j : ℕ) : ℝ :=
  (procs.getD j default).fft.complexData (i * 2 + 1)

def srcMag (procs : List Processor) (i j : ℕ) : ℝ :=
  Real.sqrt (srcRe procs i j * srcRe procs i j + srcIm procs i j * srcIm procs i j)

def srcPhase (procs : List Processor) (i j : ℕ) : ℝ :=
  atan2 (srcIm procs i j) (srcRe procs i j)

-- Test vector for the phase wraparound scenario: two synthetic unit-magnitude
-- sources whose phases at cell 0 are +179 degrees and -179 degrees.
def demoTheta : ℝ := 179 * Real.pi / 180

def demoProcs : List Processor :=
  [⟨1, 1, ⟨1, 1, fun j => if j = 0 then Real.cos demoTheta else Real.sin demoTheta⟩⟩,
   ⟨1, 1, ⟨1, 1, fun j => if j = 0 then Real.cos demoTheta else -Real.sin demoTheta⟩⟩]

-- ==================== generic write-once machinery ====================

-- A loop body that writes the pair f c at indices g c and g c + 1 of a flat
-- buffer. Both shift loops and both mixing loops have this shape.
def writePair (g : α → ℕ) (f : α → ℝ × ℝ) (b : ℕ → ℝ) (c : α) : ℕ → ℝ :=
  Function.update (Function.update b (g c) (f c).1) (g c + 1) (f c).2

-- Target index and written values of the shift loops, for use with writePair.
def shiftTarget (width height : ℕ) (c : ℕ × ℕ) : ℕ :=
  (((c.2 + height / 2) % height) * width + ((c.1 + width / 2) % width)) * 2

def shiftVals (complexData : ℕ → ℝ) (width : ℕ) (c : ℕ × ℕ) : ℝ × ℝ :=
  (complexData ((c.2 * width + c.1) * 2), complexData ((c.2 * width + c.1) * 2 + 1))

end

-- ==================== helper lemmas ====================

theorem foldl_add_eq_sum (l : List ℝ) : l.foldl (· + ·) 0 = l.sum := by
  rw [List.sum_eq_foldl]

-- ==================== C4 ====================

/-- C4: for every source dimension n, nextPowerOf2 n is a power of two, is at
least n and at least 2, and is below every power of two that is at least both n
and 2; moreover 300 maps to 512, 256 maps to 256, and 1 maps to 2. -/
theorem C4_nextPowerOf2_correct :
    (∀ n : ℕ,
      (∃ k, nextPowerOf2 n = 2 ^ k)
      ∧ n ≤ nextPowerOf2 n
      ∧ 2 ≤ nextPowerOf2 n
      ∧ ∀ k, 2 ≤ 2 ^ k → n ≤ 2 ^ k → nextPowerOf2 n ≤ 2 ^ k)
    ∧ nextPowerOf2 300 = 512 ∧ nextPowerOf2 256 = 256 ∧ nextPowerOf2 1 = 2 := by
  have hgen : ∀ n : ℕ,
      (∃ k, nextPowerOf2 n = 2 ^ k)
      ∧ n ≤ nextPowerOf2 n
      ∧ 2 ≤ nextPowerOf2 n
      ∧ ∀ k, 2 ≤ 2 ^ k → n ≤ 2 ^ k → nextPowerOf2 n ≤ 2 ^ k := by
    intro n
    by_cases hn : n ≤ 1
    · rw [nextPowerOf2, if_pos hn]
      exact ⟨⟨1, by norm_num⟩, by omega, le_refl 2, fun k hk _ => hk⟩
    · rw [nextPowerOf2, if_neg hn]
      have h2 : (1 : ℕ) < 2 := one_lt_two
      have hle : n ≤ 2 ^ Nat.clog 2 n := Nat.le_pow_clog h2 n
      refine ⟨⟨Nat.clog 2 n, rfl⟩, hle, le_trans (by omega) hle, ?_⟩
      intro k _ hnk
      exact Nat.pow_le_pow_right (by norm_num)
        ((Nat.le_pow_iff_clog_le h2).mp hnk)
  have hclog : ∀ n k : ℕ, n ≤ 2 ^ k → ¬ n ≤ 2 ^ (k - 1) → 1 ≤ k → Nat.clog 2 n = k := by
    intro n k h1 h2 hk
    have ha : Nat.clog 2 n ≤ k := (Nat.le_pow_iff_clog_le one_lt_two).mp h1
    have hb : ¬ Nat.clog 2 n ≤ k - 1 := fun h =>
      h2 ((Nat.le_pow_iff_clog_le one_lt_two).mpr h)
    omega
  refine ⟨hgen, ?_, ?_, ?_⟩
  · rw [nextPowerOf2, if_neg (by norm_num)]
    rw [hclog 300 9 (by norm_num) (by norm_num) (by norm_num)]
    norm_num
  · rw [nextPowerOf2, if_neg (by norm_num)]
    rw [hclog 256 8 (by norm_num) (by norm_num) (by norm_num)]
    norm_num
  · rw [nextPowerOf2, if_pos (by norm_num)]

theorem C4_witness : nextPowerOf2 3 ≤ 2 ^ 2 :=
  (C4_nextPowerOf2_correct.1 3).2.2.2 2 (by norm_num) (by norm_num)

-- ==================== C5 ====================

/-- C5: for a non-empty weight vector of nonnegative entries, setWeights divides
each entry by the raw sum when that sum is positive (so the stored weights sum
to 1), and stores 1/N for every entry when the raw sum is 0. -/
theorem C5_setWeights_normalization (ws : List ℝ) (hne : ws ≠ [])
    (hnn : ∀ w ∈ ws, 0 ≤ w) :
    (0 < ws.sum →
      (setWeights ws).sum = 1 ∧ setWeights ws = ws.map (fun w => w / ws.sum))
    ∧ (ws.sum = 0 → setWeights ws = ws.map (fun _ => 1 / (ws.length : ℝ))) := by
  constructor
  · intro hpos
    have hsum : ws.foldl (· + ·) 0 = ws.sum := foldl_add_eq_sum ws
    have hzero : ¬ ws.foldl (· + ·) 0 = 0 := by rw [hsum]; exact ne_of_gt hpos
    have hmap : setWeights ws = ws.map (fun w => w / ws.sum) := by
      rw [setWeights]; rw [if_neg hzero, hsum]
    refine ⟨?_, hmap⟩
    rw [hmap]
    have : (ws.map (fun w => w / ws.sum)).sum = ws.sum / ws.sum := by
      simp only [div_eq_mul_inv]
      rw [List.sum_map_mul_right, List.map_id']
    rw [this, div_self (ne_of_gt hpos)]
  · intro hzero
    have hsum : ws.foldl (· + ·) 0 = ws.sum := foldl_add_eq_sum ws
    rw [setWeights]
    rw [if_pos (by rw [hsum, hzero])]

theorem C5_witness : (setWeights [(1 : ℝ), 3]).sum = 1 := by
  have hnn : ∀ w ∈ [(1 : ℝ), 3], 0 ≤ w := by
    intro w hw
    simp only [List.mem_cons, List.not_mem_nil, or_false] at hw
    rcases hw with rfl | rfl <;> norm_num
  exact ((C5_setWeights_normalization [(1 : ℝ), 3] (by simp) hnn).1 (by norm_num)).1

-- ==================== C6 ====================

/-- C6: for every width, height and size percentage, the inner mask and the
outer mask built with identical parameters are pointwise logical complements. -/
theorem C6_region_mask_complement :
    ∀ (width height : ℕ) (size : ℚ) (x y : ℕ),
      createRegionMask "inner" size width height x y
        = !(createRegionMask "outer" size width height x y) := by
  intro width height size x y
  simp only [createRegionMask]
  rw [if_pos trivial, if_neg (by decide : ¬ ("outer" : String) = "inner"), Bool.not_not]

-- ==================== C2 ====================

/-- C2 counterexample: with size 0 on a 2 by 2 grid, the inner mask is true at
the center cell (1, 1) and the outer mask is false there, so the inner mask is
not always false and the outer mask is not always true. -/
theorem C2_counterexample :
    createRegionMask "inner" 0 2 2 1 1 = true
    ∧ createRegionMask "outer" 0 2 2 1 1 = false := by
  constructor
  · simp only [createRegionMask]
    rw [if_pos trivial]
    norm_num
  · simp only [createRegionMask]
    rw [if_neg (by decide : ¬ ("outer" : String) = "inner")]
    norm_num

/-- C2 amended: with size 0 the inner mask is true exactly at the center cell
(width / 2, height / 2) and false everywhere else, and the outer mask is its
complement (false exactly at the center cell). -/
theorem C2_amended_size_zero_mask :
    ∀ (width height x y : ℕ),
      createRegionMask "inner" 0 width height x y
          = decide (x = width / 2 ∧ y = height / 2)
      ∧ createRegionMask "outer" 0 width height x y
          = !decide (x = width / 2 ∧ y = height / 2) := by
  intro width height x y
  have hfloor : ∀ n : ℕ, Int.floor ((n : ℚ) * ((0 : ℚ) / 100) / 2) = 0 := by
    intro n; norm_num
  have hiff : (|(x : ℤ) - ((width / 2 : ℕ) : ℤ)| ≤ 0 ∧ |(y : ℤ) - ((height / 2 : ℕ) : ℤ)| ≤ 0)
      ↔ (x = width / 2 ∧ y = height / 2) := by
    rw [abs_nonpos_iff, abs_nonpos_iff, sub_eq_zero, sub_eq_zero]
    constructor
    · rintro ⟨h1, h2⟩; exact ⟨by exact_mod_cast h1, by exact_mod_cast h2⟩
    · rintro ⟨rfl, rfl⟩; exact ⟨rfl, rfl⟩
  constructor
  · simp only [createRegionMask, hfloor]
    rw [if_pos trivial, decide_eq_decide]
    exact hiff
  · simp only [createRegionMask, hfloor]
    rw [if_neg (by decide : ¬ ("outer" : String) = "inner")]
    congr 1
    rw [decide_eq_decide]
    exact hiff

-- ==================== C10 ====================

/-- C10 counterexample: starting from the initial mixer, setting the mode to
real-imaginary and then to an invalid string leaves the stored mode at
magnitude-phase, so mix does not take the real-imaginary branch even though the
last valid mode that was set was real-imaginary. -/
theorem C10_counterexample :
    (setMixMode (setMixMode initMixer "real-imaginary") "bogus").mixMode
        = "magnitude-phase"
    ∧ ¬ mixSelectsRealImaginary
        (setMixMode (setMixMode initMixer "real-imaginary") "bogus") := by
  constructor <;> decide

/-- C10 amended: the stored mode starts as magnitude-phase; setMixMode stores a
valid argument and stores magnitude-phase for an invalid one, so the stored
mode is always one of the two valid strings; consequently mix takes the
real-imaginary branch exactly when the argument of the most recent setMixMode
call was the string real-imaginary. -/
theorem C10_amended_mixMode_invariant :
    initMixer.mixMode = "magnitude-phase"
    ∧ (∀ (m : Mixer) (mode : String),
        (setMixMode m mode).mixMode =
          if mode = "magnitude-phase" ∨ mode = "real-imaginary" then mode
          else "magnitude-phase")
    ∧ (∀ (m : Mixer) (mode : String),
        (setMixMode m mode).mixMode = "magnitude-phase"
        ∨ (setMixMode m mode).mixMode = "real-imaginary")
    ∧ (∀ (m : Mixer) (mode : String),
        mixSelectsRealImaginary (setMixMode m mode) ↔ mode = "real-imaginary") := by
  have hset : ∀ (m : Mixer) (mode : String),
      (setMixMode m mode).mixMode =
        if mode = "magnitude-phase" ∨ mode = "real-imaginary" then mode
        else "magnitude-phase" := by
    intro m mode
    by_cases h1 : mode = "magnitude-phase" <;> by_cases h2 : mode = "real-imaginary" <;>
      simp [setMixMode, h1, h2]
  refine ⟨rfl, hset, ?_, ?_⟩
  · intro m mode
    rw [hset]
    by_cases h1 : mode = "magnitude-phase" <;> by_cases h2 : mode = "real-imaginary" <;>
      simp [h1, h2]
  · intro m mode
    simp only [mixSelectsRealImaginary, hset]
    by_cases h1 : mode = "magnitude-phase" <;> by_cases h2 : mode = "real-imaginary" <;>
      simp [h1, h2]

-- ==================== write-once fold machinery ====================

theorem writePair_apply_ne (g : α → ℕ) (f : α → ℝ × ℝ) (b : ℕ → ℝ) (c : α) (j : ℕ)
    (h1 : g c ≠ j) (h2 : g c + 1 ≠ j) : writePair g f b c j = b j := by
  simp only [writePair]
  rw [Function.update_noteq (Ne.symm h2), Function.update_noteq (Ne.symm h1)]

theorem foldl_writePair_not_written (g : α → ℕ) (f : α → ℝ × ℝ) :
    ∀ (L : List α) (b : ℕ → ℝ) (j : ℕ),
      (∀ c ∈ L, g c ≠ j ∧ g c + 1 ≠ j) →
      (L.foldl (writePair g f) b) j = b j := by
  intro L
  induction L with
  | nil => intro b j _; rfl
  | cons d L ih =>
    intro b j h
    rw [List.foldl_cons, ih _ j (fun c hc => h c (List.mem_cons_of_mem d hc))]
    exact writePair_apply_ne g f b d j (h d (List.mem_cons_self d L)).1
      (h d (List.mem_cons_self d L)).2

theorem foldl_writePair_written (g : α → ℕ) (f : α → ℝ × ℝ) :
    ∀ (L : List α) (b : ℕ → ℝ) (c : α), c ∈ L →
      (L.map g).Nodup →
      (∀ c' ∈ L, ∃ m, g c' = 2 * m) →
      (L.foldl (writePair g f) b) (g c) = (f c).1
      ∧ (L.foldl (writePair g f) b) (g c + 1) = (f c).2 := by
  intro L
  induction L with
  | nil => intro b c hc; cases hc
  | cons d L ih =>
    intro b c hc hnd heven
    rw [List.map_cons, List.nodup_cons] at hnd
    rw [List.foldl_cons]
    rcases List.mem_cons.mp hc with rfl | hcL
    · have hmiss : ∀ c' ∈ L, g c' ≠ g c ∧ g c' + 1 ≠ g c := by
        intro c' hc'
        obtain ⟨m', hm'⟩ := heven c' (List.mem_cons_of_mem c hc')
        obtain ⟨m, hm⟩ := heven c (List.mem_cons_self c L)
        exact ⟨fun he => hnd.1 (he ▸ List.mem_map_of_mem g hc'), by omega⟩
      have hmiss1 : ∀ c' ∈ L, g c' ≠ g c + 1 ∧ g c' + 1 ≠ g c + 1 := by
        intro c' hc'
        obtain ⟨m', hm'⟩ := heven c' (List.mem_cons_of_mem c hc')
        obtain ⟨m, hm⟩ := heven c (List.mem_cons_self c L)
        exact ⟨by omega,
          fun he => (hmiss c' hc').1 (by omega)⟩
      constructor
      · rw [foldl_writePair_not_written g f L _ (g c) hmiss]
        simp only [writePair]
        rw [Function.update_noteq (by omega : g c ≠ g c + 1), Function.update_same]
      · rw [foldl_writePair_not_written g f L _ (g c + 1) hmiss1]
        simp only [writePair]
        rw [Function.update_same]
    · exact ih _ c hcL hnd.2 (fun c' hc' => heven c' (List.mem_cons_of_mem d hc'))

theorem foldl_writePair_zero (g : α → ℕ) (f : α → ℝ × ℝ) :
    ∀ (L : List α) (b : ℕ → ℝ),
      (∀ c ∈ L, f c = (0, 0)) → (∀ j, b j = 0) →
      ∀ j, (L.foldl (writePair g f) b) j = 0 := by
  intro L
  induction L with
  | nil => intro b _ hb j; exact hb j
  | cons d L ih =>
    intro b hf hb j
    rw [List.foldl_cons]
    refine ih _ (fun c hc => hf c (List.mem_cons_of_mem d hc)) ?_ j
    intro j'
    by_cases h2 : j' = g d + 1
    · subst h2
      simp only [writePair]
      rw [Function.update_same, hf d (List.mem_cons_self d L)]
    · by_cases h1 : j' = g d
      · subst h1
        simp only [writePair]
        rw [Function.update_noteq (by omega : g d ≠ g d + 1), Function.update_same,
          hf d (List.mem_cons_self d L)]
      · simp only [writePair]
        rw [Function.update_noteq h2, Function.update_noteq h1]
        exact hb j'

-- ==================== shift grid lemmas ====================

theorem mem_shiftCells (width height x y : ℕ) :
    (x, y) ∈ shiftCells width height ↔ x < width ∧ y < height := by
  simp only [shiftCells, List.mem_flatMap, List.mem_map, List.mem_range, Prod.mk.injEq]
  constructor
  · rintro ⟨a, ha, b, hb, rfl, rfl⟩
    exact ⟨hb, ha⟩
  · rintro ⟨hx, hy⟩
    exact ⟨y, hy, x, hx, rfl, rfl⟩

theorem nodup_shiftCells (width height : ℕ) : (shiftCells width height).Nodup := by
  rw [shiftCells, List.nodup_flatMap]
  constructor
  · intro y _
    exact (List.nodup_range width).map (fun a b h => by simpa using congrArg Prod.fst h)
  · refine (List.nodup_range height).pairwise_of_forall_ne ?_
    intro y1 _ y2 _ hne
    intro p hp1 hp2
    obtain ⟨x1, _, rfl⟩ := List.mem_map.mp hp1
    obtain ⟨x2, _, h⟩ := List.mem_map.mp hp2
    exact hne (by simpa using congrArg Prod.snd h.symm)

theorem shiftTarget_even (width height : ℕ) (c : ℕ × ℕ) :
    ∃ m, shiftTarget width height c = 2 * m :=
  ⟨((c.2 + height / 2) % height) * width + ((c.1 + width / 2) % width),
    by rw [shiftTarget, Nat.mul_comm]⟩

theorem mod_cancel_of_lt (w k x x' : ℕ) (hx : x < w) (hx' : x' < w)
    (h : (x + k) % w = (x' + k) % w) : x = x' := by
  have hmod : x % w = x' % w := Nat.ModEq.add_right_cancel' k h
  rwa [Nat.mod_eq_of_lt hx, Nat.mod_eq_of_lt hx'] at hmod

theorem shiftTarget_inj (width height : ℕ) :
    ∀ c ∈ shiftCells width height, ∀ c' ∈ shiftCells width height,
      shiftTarget width height c = shiftTarget width height c' → c = c' := by
  rintro ⟨x, y⟩ hc ⟨x', y'⟩ hc' heq
  rw [mem_shiftCells] at hc hc'
  obtain ⟨hx, hy⟩ := hc
  obtain ⟨hx', hy'⟩ := hc'
  have hw : 0 < width := lt_of_le_of_lt (Nat.zero_le x) hx
  have hh : 0 < height := lt_of_le_of_lt (Nat.zero_le y) hy
  simp only [shiftTarget] at heq
  have heq2 : ((y + height / 2) % height) * width + (x + width / 2) % width
      = ((y' + height / 2) % height) * width + (x' + width / 2) % width := by omega
  have hdecomp : ∀ a r : ℕ, r < width → (a * width + r) / width = a ∧ (a * width + r) % width = r := by
    intro a r hr
    constructor
    · rw [Nat.add_comm, Nat.add_mul_div_right r a hw, Nat.div_eq_of_lt hr, Nat.zero_add]
    · rw [Nat.add_comm, Nat.add_mul_mod_self_right, Nat.mod_eq_of_lt hr]
  have hrx : (x + width / 2) % width < width := Nat.mod_lt _ hw
  have hrx' : (x' + width / 2) % width < width := Nat.mod_lt _ hw
  have hxpart : (x + width / 2) % width = (x' + width / 2) % width := by
    have h1 := (hdecomp ((y + height / 2) % height) ((x + width / 2) % width) hrx).2
    have h2 := (hdecomp ((y' + height / 2) % height) ((x' + width / 2) % width) hrx').2
    rw [← h1, ← h2, heq2]
  have hypart : (y + height / 2) % height = (y' + height / 2) % height := by
    have h1 := (hdecomp ((y + height / 2) % height) ((x + width / 2) % width) hrx).1
    have h2 := (hdecomp ((y' + height / 2) % height) ((x' + width / 2) % width) hrx').1
    rw [← h1, ← h2, heq2]
  have hxeq : x = x' := mod_cancel_of_lt width (width / 2) x x' hx hx' hxpart
  have hyeq : y = y' := mod_cancel_of_lt height (height / 2) y y' hy hy' hypart
  simp [hxeq, hyeq]

theorem nodup_map_shiftTarget (width height : ℕ) :
    ((shiftCells width height).map (shiftTarget width height)).Nodup :=
  (nodup_shiftCells width height).map_on (shiftTarget_inj width height)

theorem fftShiftComplex_apply (complexData : ℕ → ℝ) (width height x y : ℕ)
    (hx : x < width) (hy : y < height) :
    fftShiftComplex complexData width height (shiftTarget width height (x, y))
        = complexData ((y * width + x) * 2)
    ∧ fftShiftComplex complexData width height (shiftTarget width height (x, y) + 1)
        = complexData ((y * width + x) * 2 + 1) := by
  have hbridge : fftShiftComplex complexData width height
      = (shiftCells width height).foldl
          (writePair (shiftTarget width height) (shiftVals complexData width)) (fun _ => 0) := rfl
  rw [hbridge]
  exact foldl_writePair_written _ _ (shiftCells width height) _ (x, y)
    ((mem_shiftCells width height x y).mpr ⟨hx, hy⟩)
    (nodup_map_shiftTarget width height)
    (fun c' _ => shiftTarget_even width height c')

theorem ifftShift_eq_fftShiftComplex :
    ∀ (complexData : ℕ → ℝ) (width height : ℕ),
      ifftShift complexData width height = fftShiftComplex complexData width height :=
  fun _ _ _ => rfl

theorem fftShiftComplex_zero (complexData : ℕ → ℝ) (width height : ℕ)
    (h : ∀ j, complexData j = 0) :
    ∀ j, fftShiftComplex complexData width height j = 0 := by
  have hbridge : fftShiftComplex complexData width height
      = (shiftCells width height).foldl
          (writePair (shiftTarget width height) (shiftVals complexData width)) (fun _ => 0) := rfl
  rw [hbridge]
  exact foldl_writePair_zero _ _ (shiftCells width height) _
    (fun c _ => by simp [shiftVals, h]) (fun _ => rfl)

theorem mod_half_involution (w x : ℕ) (hw : Even w) (hx : x < w) :
    ((x + w / 2) % w + w / 2) % w = x := by
  obtain ⟨k, hk⟩ := hw
  have hw2 : w / 2 = k := by omega
  have hxw : x + k + k = x + w := by omega
  rw [hw2, Nat.mod_add_mod, hxw, Nat.add_mod_right, Nat.mod_eq_of_lt hx]

-- ==================== C8 ====================

/-- C8: for even dimensions, the inverse spectrum shift undoes the forward
spectrum shift on every in-range buffer entry, because both move the complex
value at (x, y) to ((x + width/2) mod width, (y + height/2) mod height) and
that translation is an involution when the dimensions are even. -/
theorem C8_shift_involution (width height : ℕ) (complexData : ℕ → ℝ) (x y : ℕ)
    (hweven : Even width) (hheven : Even height) (hx : x < width) (hy : y < height) :
    ifftShift (fftShiftComplex complexData width height) width height ((y * width + x) * 2)
        = complexData ((y * width + x) * 2)
    ∧ ifftShift (fftShiftComplex complexData width height) width height ((y * width + x) * 2 + 1)
        = complexData ((y * width + x) * 2 + 1) := by
  have hw : 0 < width := lt_of_le_of_lt (Nat.zero_le x) hx
  have hh : 0 < height := lt_of_le_of_lt (Nat.zero_le y) hy
  have hx'w : (x + width / 2) % width < width := Nat.mod_lt _ hw
  have hy'h : (y + height / 2) % height < height := Nat.mod_lt _ hh
  have hxx : ((x + width / 2) % width + width / 2) % width = x :=
    mod_half_involution width x hweven hx
  have hyy : ((y + height / 2) % height + height / 2) % height = y :=
    mod_half_involution height y hheven hy
  have htar : shiftTarget width height ((x + width / 2) % width, (y + height / 2) % height)
      = (y * width + x) * 2 := by
    simp only [shiftTarget]
    rw [hxx, hyy]
  have htar2 : shiftTarget width height (x, y)
      = (((y + height / 2) % height) * width + ((x + width / 2) % width)) * 2 := rfl
  have houter := fftShiftComplex_apply (fftShiftComplex complexData width height)
    width height ((x + width / 2) % width) ((y + height / 2) % height) hx'w hy'h
  have hinner := fftShiftComplex_apply complexData width height x y hx hy
  rw [ifftShift_eq_fftShiftComplex]
  constructor
  · calc fftShiftComplex (fftShiftComplex complexData width height) width height
          ((y * width + x) * 2)
        = fftShiftComplex (fftShiftComplex complexData width height) width height
            (shiftTarget width height ((x + width / 2) % width, (y + height / 2) % height)) := by
          rw [htar]
      _ = fftShiftComplex complexData width height
            ((((y + height / 2) % height) * width + ((x + width / 2) % width)) * 2) := houter.1
      _ = fftShiftComplex complexData width height (shiftTarget width height (x, y)) := by
          rw [htar2]
      _ = complexData ((y * width + x) * 2) := hinner.1
  · calc fftShiftComplex (fftShiftComplex complexData width height) width height
          ((y * width + x) * 2 + 1)
        = fftShiftComplex (fftShiftComplex complexData width height) width height
            (shiftTarget width height ((x + width / 2) % width, (y + height / 2) % height) + 1) := by
          rw [htar]
      _ = fftShiftComplex complexData width height
            ((((y + height / 2) % height) * width + ((x + width / 2) % width)) * 2 + 1) := houter.2
      _ = fftShiftComplex complexData width height (shiftTarget width height (x, y) + 1) := by
          rw [htar2]
      _ = complexData ((y * width + x) * 2 + 1) := hinner.2

theorem C8_witness :
    ifftShift (fftShiftComplex (fun j => (j : ℝ)) 2 2) 2 2 ((1 * 2 + 1) * 2)
        = (((1 * 2 + 1) * 2 : ℕ) : ℝ) :=
  (C8_shift_involution 2 2 (fun j => (j : ℝ)) 1 1 (by decide) (by decide)
    (by decide) (by decide)).1

-- ==================== C9 ====================

theorem foldl_mixMPStep_processors (weights : List ℝ) (regionMask : Option (ℕ → Bool)) :
    ∀ (L : List ℕ) (s : MixLoopState),
      (L.foldl (mixMPStep weights regionMask) s).processors = s.processors := by
  intro L
  induction L with
  | nil => intro s; rfl
  | cons d L ih => intro s; rw [List.foldl_cons]; exact ih _

theorem foldl_mixRIStep_processors (weights : List ℝ) (regionMask : Option (ℕ → Bool)) :
    ∀ (L : List ℕ) (s : MixLoopState),
      (L.foldl (mixRIStep weights regionMask) s).processors = s.processors := by
  intro L
  induction L with
  | nil => intro s; rfl
  | cons d L ih => intro s; rw [List.foldl_cons]; exact ih _

/-- C9: the mixing loops of both modes, with or without a region mask, leave
the processor list (hence every width, height, fftWidth, fftHeight and
fft.complexData of every processor) unchanged: the only buffer they write is
the freshly allocated mixedComplex output. -/
theorem C9_mix_preserves_processors :
    ∀ (procs : List Processor) (weights : List ℝ) (regionConfig : Option RegionConfig)
      (fftWidth fftHeight : ℕ),
      (mixMagnitudePhase procs weights regionConfig fftWidth fftHeight).processors = procs
      ∧ (mixRealImaginary procs weights regionConfig fftWidth fftHeight).processors = procs := by
  intro procs weights regionConfig fftWidth fftHeight
  constructor
  · exact foldl_mixMPStep_processors weights (activeRegionMask regionConfig fftWidth fftHeight)
      (List.range (fftWidth * fftHeight)) ⟨procs, fun _ => 0⟩
  · exact foldl_mixRIStep_processors weights (activeRegionMask regionConfig fftWidth fftHeight)
      (List.range (fftWidth * fftHeight)) ⟨procs, fun _ => 0⟩

-- ==================== zero propagation ====================

theorem transform1D_zero (n : ℕ) (input : ℕ → ℝ) (h : ∀ k, input k = 0) :
    ∀ j, transform1D n input j = 0 := by
  intro j
  simp only [transform1D]
  split
  · refine Finset.sum_eq_zero ?_
    intro t _
    rw [h, h]
    ring
  · refine Finset.sum_eq_zero ?_
    intro t _
    rw [h, h]
    ring

theorem inverseTransform1D_zero (n : ℕ) (input : ℕ → ℝ) (h : ∀ k, input k = 0) :
    ∀ j, inverseTransform1D n input j = 0 := by
  intro j
  simp only [inverseTransform1D]
  split
  · rw [Finset.sum_eq_zero (fun t _ => by rw [h, h]; ring), zero_div]
  · rw [Finset.sum_eq_zero (fun t _ => by rw [h, h]; ring), zero_div]

theorem fft2D_zero (data : ℕ → ℝ) (width height : ℕ) (hd : ∀ i, data i = 0) :
    ∀ j, fft2D data width height j = 0 := by
  intro j
  simp only [fft2D]
  refine transform1D_zero _ _ ?_ _
  intro k
  refine transform1D_zero _ _ ?_ _
  intro k'
  split
  · exact hd _
  · rfl

-- ==================== C1 ====================

/-- C1 counterexample: with a zero-sized raster (width = 0, height = 0) and
grayscale data present, computeFFT returns a result instead of failing: there
is no InvalidInput check anywhere on the path. -/
theorem C1_counterexample :
    (imageProcessorComputeFFT 0 0 (some (fun _ => 0))).isSome = true := rfl

/-- C1 amended: the transform performs no size validation at all. Whenever
grayscale data is present, computeFFT returns the computed result for any
dimensions, and for an empty raster (width = 0, height = 0) the returned
spectrum is the all-zero buffer over the minimal 2 by 2 padded grid. -/
theorem C1_amended_no_validation :
    (∀ (width height : ℕ) (g : ℕ → ℝ),
      imageProcessorComputeFFT width height (some g) = some (compute2DFFT width height g))
    ∧ (∀ (g : ℕ → ℝ) (j : ℕ), (compute2DFFT 0 0 g).complexData j = 0) := by
  constructor
  · intro width height g
    rfl
  · intro g j
    show fftShiftComplex
      (fft2D (padData g 0 0 (nextPowerOf2 0) (nextPowerOf2 0)) (nextPowerOf2 0) (nextPowerOf2 0))
      (nextPowerOf2 0) (nextPowerOf2 0) j = 0
    refine fftShiftComplex_zero _ _ _ ?_ j
    refine fft2D_zero _ _ _ ?_
    intro i
    simp only [padData]
    rw [if_neg (fun hc => Nat.not_lt_zero _ hc.1)]

-- ==================== C7 ====================

theorem scan_min_zero : ∀ (l : List ℝ), (∀ v ∈ l, v = 0) →
    l.foldl (fun m v => if v < m then v else m) 0 = 0 := by
  intro l
  induction l with
  | nil => intro _; rfl
  | cons d l ih =>
    intro h
    rw [List.foldl_cons, h d (List.mem_cons_self d l)]
    have : (if (0 : ℝ) < 0 then (0 : ℝ) else 0) = 0 := by simp
    rw [this]
    exact ih (fun v hv => h v (List.mem_cons_of_mem d hv))

theorem scan_max_zero : ∀ (l : List ℝ), (∀ v ∈ l, v = 0) →
    l.foldl (fun m v => if m < v then v else m) 0 = 0 := by
  intro l
  induction l with
  | nil => intro _; rfl
  | cons d l ih =>
    intro h
    rw [List.foldl_cons, h d (List.mem_cons_self d l)]
    have : (if (0 : ℝ) < 0 then (0 : ℝ) else 0) = 0 := by simp
    rw [this]
    exact ih (fun v hv => h v (List.mem_cons_of_mem d hv))

theorem ctgMin_zero (l : List ℝ) (h : ∀ v ∈ l, v = 0) : ctgMin l = 0 := by
  match l with
  | [] => rfl
  | d :: l =>
    simp only [ctgMin, List.tail_cons, List.headD_cons]
    rw [h d (List.mem_cons_self d l)]
    exact scan_min_zero l (fun v hv => h v (List.mem_cons_of_mem d hv))

theorem ctgMax_zero (l : List ℝ) (h : ∀ v ∈ l, v = 0) : ctgMax l = 0 := by
  match l with
  | [] => rfl
  | d :: l =>
    simp only [ctgMax, List.tail_cons, List.headD_cons]
    rw [h d (List.mem_cons_self d l)]
    exact scan_max_zero l (fun v hv => h v (List.mem_cons_of_mem d hv))

theorem complexToGrayscale_zero (complexResult : ℕ → ℝ)
    (fftWidth outputWidth outputHeight : ℕ) (h : ∀ j, complexResult j = 0) :
    complexToGrayscale complexResult fftWidth outputWidth outputHeight
      = List.replicate (outputWidth * outputHeight) 128 := by
  have hvals : ∀ v ∈ ctgRealValues complexResult fftWidth outputWidth outputHeight, v = 0 := by
    intro v hv
    simp only [ctgRealValues, List.mem_flatMap, List.mem_map] at hv
    obtain ⟨y, _, x, _, rfl⟩ := hv
    exact h _
  simp only [complexToGrayscale]
  rw [ctgMin_zero _ hvals, ctgMax_zero _ hvals]
  simp

theorem sqrt_self_mul_add_self_mul_eq_zero (a b : ℝ)
    (hs : Real.sqrt (a * a + b * b) = 0) : a = 0 ∧ b = 0 := by
  have hle : a * a + b * b ≤ 0 := Real.sqrt_eq_zero'.mp hs
  have ha := mul_self_nonneg a
  have hb := mul_self_nonneg b
  constructor
  · exact mul_self_eq_zero.mp (le_antisymm (by linarith) ha)
  · exact mul_self_eq_zero.mp (le_antisymm (by linarith) hb)

/-- C7: if the max minus min of the extracted real values is zero, every cell
of the output is 128 with no division; in particular a spectrum whose magnitude
is zero at every cell reconstructs through performIFFT to a raster uniformly
equal to 128. On the real-number model the range is always finite, so the
non-finite arm of the JavaScript guard is vacuous. -/
theorem C7_degenerate_gray_fill :
    (∀ (complexResult : ℕ → ℝ) (fftWidth outputWidth outputHeight : ℕ),
      ctgMax (ctgRealValues complexResult fftWidth outputWidth outputHeight)
          - ctgMin (ctgRealValues complexResult fftWidth outputWidth outputHeight) = 0 →
      complexToGrayscale complexResult fftWidth outputWidth outputHeight
        = List.replicate (outputWidth * outputHeight) 128)
    ∧ (∀ (complexData : ℕ → ℝ) (fftWidth fftHeight outputWidth outputHeight : ℕ),
      (∀ i, Real.sqrt (complexData (2 * i) * complexData (2 * i)
            + complexData (2 * i + 1) * complexData (2 * i + 1)) = 0) →
      performIFFT complexData fftWidth fftHeight outputWidth outputHeight
        = List.replicate (outputWidth * outputHeight) 128) := by
  constructor
  · intro complexResult fftWidth outputWidth outputHeight hrange
    simp only [complexToGrayscale]
    rw [if_pos hrange]
  · intro complexData fftWidth fftHeight outputWidth outputHeight hmag
    have hcd : ∀ j, complexData j = 0 := by
      intro j
      rcases Nat.mod_two_eq_zero_or_one j with hp | hp
      · have hj : j = 2 * (j / 2) := by omega
        rw [hj]
        exact (sqrt_self_mul_add_self_mul_eq_zero _ _ (hmag (j / 2))).1
      · have hj : j = 2 * (j / 2) + 1 := by omega
        rw [hj]
        exact (sqrt_self_mul_add_self_mul_eq_zero _ _ (hmag (j / 2))).2
    simp only [performIFFT]
    refine complexToGrayscale_zero _ _ _ _ ?_
    intro j
    refine inverseTransform1D_zero _ _ ?_ _
    intro k
    refine inverseTransform1D_zero _ _ ?_ _
    intro k'
    rw [ifftShift_eq_fftShiftComplex]
    exact fftShiftComplex_zero _ _ _ hcd _

theorem C7_witness :
    complexToGrayscale (fun _ => 0) 1 1 1 = List.replicate (1 * 1) 128 :=
  C7_degenerate_gray_fill.1 (fun _ => 0) 1 1 1
    (by
      have h1 : List.range 1 = [0] := rfl
      simp [ctgRealValues, ctgMin, ctgMax, h1])

-- ==================== C3 ====================

theorem atan2_sin_cos (θ : ℝ) (h1 : -Real.pi < θ) (h2 : θ ≤ Real.pi) :
    atan2 (Real.sin θ) (Real.cos θ) = θ := by
  simp only [atan2]
  rw [Complex.ofReal_cos, Complex.ofReal_sin]
  exact Complex.arg_cos_add_sin_mul_I ⟨h1, h2⟩

theorem atan2_zero_neg (x : ℝ) (hx : x < 0) : atan2 0 x = Real.pi := by
  simp only [atan2]
  refine Complex.arg_eq_pi_iff.mpr ⟨?_, ?_⟩ <;> simp [hx]

theorem foldl_mixMPStep_none_eq (procs : List Processor) (weights : List ℝ) :
    ∀ (L : List ℕ) (b : ℕ → ℝ),
      L.foldl (mixMPStep weights none) ⟨procs, b⟩
        = ⟨procs, L.foldl
            (writePair (fun i => i * 2) (fun i => mpCellValue procs weights i)) b⟩ := by
  intro L
  induction L with
  | nil => intro b; rfl
  | cons d L ih =>
    intro b
    rw [List.foldl_cons, List.foldl_cons]
    exact ih (writePair (fun i => i * 2) (fun i => mpCellValue procs weights i) b d)

theorem mixMagnitudePhase_none_apply (procs : List Processor) (weights : List ℝ)
    (fftWidth fftHeight i : ℕ) (hi : i < fftWidth * fftHeight) :
    (mixMagnitudePhase procs weights none fftWidth fftHeight).mixedComplex (i * 2)
        = (mpCellValue procs weights i).1
    ∧ (mixMagnitudePhase procs weights none fftWidth fftHeight).mixedComplex (i * 2 + 1)
        = (mpCellValue procs weights i).2 := by
  have hb : mixMagnitudePhase procs weights none fftWidth fftHeight
      = ⟨procs, (List.range (fftWidth * fftHeight)).foldl
          (writePair (fun i => i * 2) (fun i => mpCellValue procs weights i)) (fun _ => 0)⟩ :=
    foldl_mixMPStep_none_eq procs weights (List.range (fftWidth * fftHeight)) (fun _ => 0)
  rw [hb]
  exact foldl_writePair_written (fun i => i * 2) (fun i => mpCellValue procs weights i)
    (List.range (fftWidth * fftHeight)) (fun _ => 0) i (List.mem_range.mpr hi)
    ((List.nodup_range (fftWidth * fftHeight)).map
      (fun a b hab => Nat.eq_of_mul_eq_mul_right (by norm_num) hab))
    (fun c' _ => ⟨c', Nat.mul_comm c' 2⟩)

theorem foldl_mp_accum (F G H w : ℕ → ℝ) :
    ∀ (n : ℕ) (acc : ℝ × ℝ × ℝ),
      (List.range n).foldl
        (fun acc j => if w j = 0 then acc
          else (acc.1 + F j * w j, acc.2.1 + G j * w j, acc.2.2 + H j * w j)) acc
      = (acc.1 + ∑ j ∈ Finset.range n, w j * F j,
         acc.2.1 + ∑ j ∈ Finset.range n, w j * G j,
         acc.2.2 + ∑ j ∈ Finset.range n, w j * H j) := by
  intro n
  induction n with
  | zero => intro acc; simp
  | succ n ih =>
    intro acc
    rw [List.range_succ, List.foldl_append, ih, List.foldl_cons, List.foldl_nil]
    by_cases hw : w n = 0
    · rw [if_pos hw]
      simp only [Finset.sum_range_succ, hw, zero_mul, add_zero]
    · rw [if_neg hw]
      simp only [Finset.sum_range_succ, Prod.mk.injEq]
      refine ⟨by ring, by ring, by ring⟩

theorem mpAccum_eq (procs : List Processor) (weights : List ℝ) (i : ℕ) :
    mpAccum procs weights i
      = (∑ j ∈ Finset.range procs.length, weights.getD j 0 * srcMag procs i j,
         ∑ j ∈ Finset.range procs.length, weights.getD j 0 * Real.cos (srcPhase procs i j),
         ∑ j ∈ Finset.range procs.length, weights.getD j 0 * Real.sin (srcPhase procs i j)) := by
  have h := foldl_mp_accum (fun j => srcMag procs i j)
    (fun j => Real.cos (srcPhase procs i j)) (fun j => Real.sin (srcPhase procs i j))
    (fun j => weights.getD j 0) procs.length (0, 0, 0)
  simp only [zero_add] at h
  exact h

/-- C3: in magnitude-phase mode (no region mask) the output at every cell i is
(mixedMagnitude * cos mixedPhase, mixedMagnitude * sin mixedPhase), where
mixedMagnitude is the weighted sum of the source magnitudes and mixedPhase is
the circular mean atan2 of the weighted sine and cosine sums of the source
phases; in particular, mixing two equal-weight sources with phases +179 and
-179 degrees produces the output cell (-1, 0), whose phase is pi (that is,
180 degrees, not 0). -/
theorem C3_magnitude_phase_circular_mean :
    (∀ (procs : List Processor) (weights : List ℝ) (fftWidth fftHeight i : ℕ),
      i < fftWidth * fftHeight →
      (mixMagnitudePhase procs weights none fftWidth fftHeight).mixedComplex (i * 2)
          = (∑ j ∈ Finset.range procs.length, weights.getD j 0 * srcMag procs i j)
            * Real.cos (atan2
                (∑ j ∈ Finset.range procs.length,
                  weights.getD j 0 * Real.sin (srcPhase procs i j))
                (∑ j ∈ Finset.range procs.length,
                  weights.getD j 0 * Real.cos (srcPhase procs i j)))
      ∧ (mixMagnitudePhase procs weights none fftWidth fftHeight).mixedComplex (i * 2 + 1)
          = (∑ j ∈ Finset.range procs.length, weights.getD j 0 * srcMag procs i j)
            * Real.sin (atan2
                (∑ j ∈ Finset.range procs.length,
                  weights.getD j 0 * Real.sin (srcPhase procs i j))
                (∑ j ∈ Finset.range procs.length,
                  weights.getD j 0 * Real.cos (srcPhase procs i j))))
    ∧ ((mixMagnitudePhase demoProcs [(1 : ℝ)/2, 1/2] none 1 1).mixedComplex 0 = -1
      ∧ (mixMagnitudePhase demoProcs [(1 : ℝ)/2, 1/2] none 1 1).mixedComplex 1 = 0
      ∧ atan2 ((mixMagnitudePhase demoProcs [(1 : ℝ)/2, 1/2] none 1 1).mixedComplex 1)
          ((mixMagnitudePhase demoProcs [(1 : ℝ)/2, 1/2] none 1 1).mixedComplex 0) = Real.pi
      ∧ Real.pi ≠ 0) := by
  have hgen : ∀ (procs : List Processor) (weights : List ℝ) (fftWidth fftHeight i : ℕ),
      i < fftWidth * fftHeight →
      (mixMagnitudePhase procs weights none fftWidth fftHeight).mixedComplex (i * 2)
          = (∑ j ∈ Finset.range procs.length, weights.getD j 0 * srcMag procs i j)
            * Real.cos (atan2
                (∑ j ∈ Finset.range procs.length,
                  weights.getD j 0 * Real.sin (srcPhase procs i j))
                (∑ j ∈ Finset.range procs.length,
                  weights.getD j 0 * Real.cos (srcPhase procs i j)))
      ∧ (mixMagnitudePhase procs weights none fftWidth fftHeight).mixedComplex (i * 2 + 1)
          = (∑ j ∈ Finset.range procs.length, weights.getD j 0 * srcMag procs i j)
            * Real.sin (atan2
                (∑ j ∈ Finset.range procs.length,
                  weights.getD j 0 * Real.sin (srcPhase procs i j))
                (∑ j ∈ Finset.range procs.length,
                  weights.getD j 0 * Real.cos (srcPhase procs i j))) := by
    intro procs weights fftWidth fftHeight i hi
    obtain ⟨h0, h1⟩ := mixMagnitudePhase_none_apply procs weights fftWidth fftHeight i hi
    constructor
    · rw [h0]
      simp only [mpCellValue, mpAccum_eq]
    · rw [h1]
      simp only [mpCellValue, mpAccum_eq]
  refine ⟨hgen, ?_⟩
  have hpi := Real.pi_pos
  have hθlow : -Real.pi < demoTheta := by simp only [demoTheta]; nlinarith
  have hθhi : demoTheta ≤ Real.pi := by simp only [demoTheta]; nlinarith
  have hθlt : demoTheta < Real.pi := by simp only [demoTheta]; nlinarith
  have hθhalf : Real.pi / 2 < demoTheta := by simp only [demoTheta]; nlinarith
  have hcosneg : Real.cos demoTheta < 0 :=
    Real.cos_neg_of_pi_div_two_lt_of_lt hθhalf (by nlinarith)
  have hre0 : srcRe demoProcs 0 0 = Real.cos demoTheta := by simp [srcRe, demoProcs]
  have him0 : srcIm demoProcs 0 0 = Real.sin demoTheta := by simp [srcIm, demoProcs]
  have hre1 : srcRe demoProcs 0 1 = Real.cos demoTheta := by simp [srcRe, demoProcs]
  have him1 : srcIm demoProcs 0 1 = -Real.sin demoTheta := by simp [srcIm, demoProcs]
  have hphase0 : srcPhase demoProcs 0 0 = demoTheta := by
    simp only [srcPhase]
    rw [hre0, him0]
    exact atan2_sin_cos demoTheta hθlow hθhi
  have hphase1 : srcPhase demoProcs 0 1 = -demoTheta := by
    simp only [srcPhase]
    rw [hre1, him1, ← Real.sin_neg, ← Real.cos_neg]
    exact atan2_sin_cos (-demoTheta) (by linarith) (by linarith)
  have hmag0 : srcMag demoProcs 0 0 = 1 := by
    simp only [srcMag]
    rw [hre0, him0]
    rw [show Real.cos demoTheta * Real.cos demoTheta
        + Real.sin demoTheta * Real.sin demoTheta = 1 from by
      nlinarith [Real.sin_sq_add_cos_sq demoTheta]]
    exact Real.sqrt_one
  have hmag1 : srcMag demoProcs 0 1 = 1 := by
    simp only [srcMag]
    rw [hre1, him1]
    rw [show Real.cos demoTheta * Real.cos demoTheta
        + -Real.sin demoTheta * -Real.sin demoTheta = 1 from by
      nlinarith [Real.sin_sq_add_cos_sq demoTheta]]
    exact Real.sqrt_one
  have hlen : demoProcs.length = 2 := rfl
  have hM : ∑ j ∈ Finset.range demoProcs.length,
      ([(1 : ℝ)/2, 1/2]).getD j 0 * srcMag demoProcs 0 j = 1 := by
    rw [hlen, Finset.sum_range_succ, Finset.sum_range_succ, Finset.sum_range_zero]
    rw [hmag0, hmag1]
    norm_num [List.getD]
  have hC : ∑ j ∈ Finset.range demoProcs.length,
      ([(1 : ℝ)/2, 1/2]).getD j 0 * Real.cos (srcPhase demoProcs 0 j)
      = Real.cos demoTheta := by
    rw [hlen, Finset.sum_range_succ, Finset.sum_range_succ, Finset.sum_range_zero]
    rw [hphase0, hphase1, Real.cos_neg]
    show 0 + ([(1 : ℝ)/2, 1/2]).getD 0 0 * Real.cos demoTheta
        + ([(1 : ℝ)/2, 1/2]).getD 1 0 * Real.cos demoTheta = Real.cos demoTheta
    norm_num [List.getD]
    ring
  have hS : ∑ j ∈ Finset.range demoProcs.length,
      ([(1 : ℝ)/2, 1/2]).getD j 0 * Real.sin (srcPhase demoProcs 0 j) = 0 := by
    rw [hlen, Finset.sum_range_succ, Finset.sum_range_succ, Finset.sum_range_zero]
    rw [hphase0, hphase1, Real.sin_neg]
    show 0 + ([(1 : ℝ)/2, 1/2]).getD 0 0 * Real.sin demoTheta
        + ([(1 : ℝ)/2, 1/2]).getD 1 0 * -Real.sin demoTheta = 0
    norm_num [List.getD]
  obtain ⟨g0, g1⟩ := hgen demoProcs [(1 : ℝ)/2, 1/2] 1 1 0 (by norm_num)
  have hA0 : (mixMagnitudePhase demoProcs [(1 : ℝ)/2, 1/2] none 1 1).mixedComplex 0 = -1 := by
    have e0 : (mixMagnitudePhase demoProcs [(1 : ℝ)/2, 1/2] none 1 1).mixedComplex 0
        = (∑ j ∈ Finset.range demoProcs.length,
            ([(1 : ℝ)/2, 1/2]).getD j 0 * srcMag demoProcs 0 j)
          * Real.cos (atan2
              (∑ j ∈ Finset.range demoProcs.length,
                ([(1 : ℝ)/2, 1/2]).getD j 0 * Real.sin (srcPhase demoProcs 0 j))
              (∑ j ∈ Finset.range demoProcs.length,
                ([(1 : ℝ)/2, 1/2]).getD j 0 * Real.cos (srcPhase demoProcs 0 j))) := g0
    rw [e0, hM, hC, hS, atan2_zero_neg _ hcosneg, Real.cos_pi]
    norm_num
  have hA1 : (mixMagnitudePhase demoProcs [(1 : ℝ)/2, 1/2] none 1 1).mixedComplex 1 = 0 := by
    have e1 : (mixMagnitudePhase demoProcs [(1 : ℝ)/2, 1/2] none 1 1).mixedComplex 1
        = (∑ j ∈ Finset.range demoProcs.length,
            ([(1 : ℝ)/2, 1/2]).getD j 0 * srcMag demoProcs 0 j)
          * Real.sin (atan2
              (∑ j ∈ Finset.range demoProcs.length,
                ([(1 : ℝ)/2, 1/2]).getD j 0 * Real.sin (srcPhase demoProcs 0 j))
              (∑ j ∈ Finset.range demoProcs.length,
                ([(1 : ℝ)/2, 1/2]).getD j 0 * Real.cos (srcPhase demoProcs 0 j))) := g1
    rw [e1, hM, hC, hS, atan2_zero_neg _ hcosneg, Real.sin_pi]
    norm_num
  refine ⟨hA0, hA1, ?_, Real.pi_ne_zero⟩
  rw [hA0, hA1]
  exact atan2_zero_neg (-1) (by norm_num)

theorem C3_witness :
    (mixMagnitudePhase demoProcs [(1 : ℝ)/2, 1/2] none 1 1).mixedComplex (0 * 2)
      = (∑ j ∈ Finset.range demoProcs.length,
          ([(1 : ℝ)/2, 1/2]).getD j 0 * srcMag demoProcs 0 j)
        * Real.cos (atan2
            (∑ j ∈ Finset.range demoProcs.length,
              ([(1 : ℝ)/2, 1/2]).getD j 0 * Real.sin (srcPhase demoProcs 0 j))
            (∑ j ∈ Finset.range demoProcs.length,
              ([(1 : ℝ)/2, 1/2]).getD j 0 * Real.cos (srcPhase demoProcs 0 j))) :=
  (C3_magnitude_phase_circular_mean.1 demoProcs [(1 : ℝ)/2, 1/2] 1 1 0 (by norm_num)).1
